import Mathlib

/-!
# Shallow embedding of `praw/models/listing/generator.py` (`ListingGenerator`)

The source file implements lazy cursor-based pagination: `__init__` stores a
deep copy of the caller's query parameters, `__next__` enforces the item
limit, refills the current page when needed via `_next_batch`, and yields
items one at a time.  `_next_batch` performs one fetch, normalizes the two
special response shapes (a Python `list` is unwrapped at index 1, a `dict` is
wrapped as a `FlairListing`; anything else is used as-is), raises
`StopIteration` on an empty page, and advances or exhausts the cursor.

The embedding models Python values explicitly: the parameter dictionary is an
insertion-ordered association list with Python `dict` get/set semantics;
`StopIteration` and exceptions raised by the fetch collaborator are explicit
result signals; the fetch collaborator is an oracle supplied per `next()`
call (consumed only if a fetch actually happens, and every step result
records whether a fetch happened).  Machine integers are `Int`/`Nat` (Python
integers are unbounded, so no wrap-around modelling is needed).
-/

namespace Praw

/-- Items of a listing page.  Their internal shape is irrelevant to the
generator, which only indexes into the page, so they are modelled opaquely
as naturals. -/
abbrev Item := Nat

/-- A value stored in the query-parameter dictionary (`Dict[str, Union[str, int]]`). -/
inductive Val where
  | vStr (s : String)
  | vInt (n : Int)
deriving DecidableEq

/-- The query-parameter dictionary: an insertion-ordered association list,
mirroring a Python `dict` with string keys. -/
abbrev Params := List (String × Val)

/-- `d.get(k)` of a Python dict: the value at the first (unique) occurrence
of the key, or `None`. -/
def Params.get (p : Params) (k : String) : Option Val :=
  match p with
  | [] => none
  | (k', v) :: rest => if k' = k then some v else Params.get rest k

/-- `d[k] = v` of a Python dict: replace the value in place if the key is
present, otherwise append the new binding at the end. -/
def Params.set (p : Params) (k : String) (v : Val) : Params :=
  match p with
  | [] => [(k, v)]
  | (k', v') :: rest =>
      if k' = k then (k', v) :: rest else (k', v') :: Params.set rest k v

/-- A listing page as consumed by the generator: an indexable ordered
sequence of items plus the `after` cursor (`None` or a string in Python). -/
structure Page where
  children : List Item
  after : Option String
deriving DecidableEq

/-- Modelled from the spec: `FlairListing` (defined in
`praw/models/listing/listing.py`, which is not among the source files) wraps
a keyed (dict) response as a specialized page type whose items are the
flair-listing entries, exposing the same ordered-items/`after` contract as a
bare page. -/
structure FlairData where
  users : List Item
  next : Option String
deriving DecidableEq

/-- Modelled from the spec: the `FlairListing(self._reddit, data)` wrapping
step — the keyed structure's listing field becomes the ordered items and its
continuation field becomes the `after` cursor. -/
def flairListing (d : FlairData) : Page :=
  { children := d.users, after := d.next }

/-- The raw value returned by `self._reddit.get(self.url, params=self.params)`:
a Python `list` (the "submission duplicates" shape, a two-element sequence
`[primary, page]` per the fetch collaborator's contract), a Python `dict`
(the flair shape), or any other object (the ordinary bare listing), matching
the `isinstance` chain in `_next_batch`. -/
inductive RawResponse where
  | pyList (primary : Page) (second : Page)
  | pyDict (d : FlairData)
  | other (p : Page)
deriving DecidableEq

/-- The outcome of the (external) fetch call: a decoded response, or an
arbitrary exception raised by the collaborator (network error, decoding
error, ...), identified opaquely by a code. -/
inductive FetchOutcome where
  | ok (raw : RawResponse)
  | raise (e : Nat)
deriving DecidableEq

/-- The response-shape normalization of `_next_batch`:
`if isinstance(self._listing, list): self._listing = self._listing[1]`
`elif isinstance(self._listing, dict): self._listing = FlairListing(...)`;
any other object falls through both branches and is used as the page. -/
def normalizeResponse (r : RawResponse) : Page :=
  match r with
  | .pyList _ second => second
  | .pyDict d => flairListing d
  | .other p => p

/-- Python truthiness/inequality test
`self._listing.after != self.params.get("after")`, negated: a string cursor
compares equal to the stored parameter value only when that value is the
same string (comparing against a missing key or an integer value is always
unequal in Python). -/
def afterMatches (a : String) (v : Option Val) : Bool :=
  match v with
  | some (.vStr s) => a = s
  | _ => false

/-- The cursor test of `_next_batch`:
`if self._listing.after and self._listing.after != self.params.get("after")`.
Returns the new cursor string when the branch is taken (the page's `after`
is truthy, i.e. a non-empty string, and differs from the stored value),
`none` when the `else` branch (exhaustion) is taken. -/
def newCursor (pageAfter : Option String) (ps : Params) : Option String :=
  match pageAfter with
  | none => none
  | some a => if a ≠ "" && !(afterMatches a (Params.get ps "after")) then some a else none

/-- The mutable state of a `ListingGenerator` instance: `_exhausted`,
`_listing`, `_list_index`, `limit`, `params`, `url`, `yielded`.  (`_reddit`
is held only to perform fetches, which the embedding supplies as an oracle.) -/
structure Gen where
  exhausted : Bool
  listing : Option Page
  listIndex : Option Nat
  limit : Option Int
  params : Params
  url : String
  yielded : Nat
deriving DecidableEq

/-- `self.params["limit"] = limit or 1024`: Python `or` takes `1024` when
`limit` is falsy (`None` or `0`). -/
def pageSizeHint (limit : Option Int) : Val :=
  match limit with
  | none => .vInt 1024
  | some n => if n = 0 then .vInt 1024 else .vInt n

/-- `ListingGenerator.__init__`.  `self.params = deepcopy(params) if params
else {}` copies the caller's dictionary when it is truthy (non-`None` and
non-empty); the page-size hint is then written into the copy.  In this pure
model the deep copy is the value itself (aliasing is treated separately in
the heap model below). -/
def Gen.init (url : String) (limit : Option Int) (params : Option Params) : Gen :=
  let base : Params :=
    match params with
    | none => []
    | some ps => if ps.isEmpty then [] else ps
  { exhausted := false
    listing := none
    listIndex := none
    limit := limit
    params := Params.set base "limit" (pageSizeHint limit)
    url := url
    yielded := 0 }

/-- Signal produced by one `__next__` call. -/
inductive NextSig where
  | yield (x : Item)
  | stop
  | fetchFail (e : Nat)
  | pyError
deriving DecidableEq

/-- Result of one `__next__` call: the signal, the state of the generator
after the call (also when an exception was raised), and whether
`self._reddit.get` was invoked during the call. -/
structure NextResult where
  sig : NextSig
  st : Gen
  didFetch : Bool
deriving DecidableEq

/-- Signal produced by `_next_batch`. -/
inductive BatchSig where
  | ok
  | stop
  | fetchFail (e : Nat)
deriving DecidableEq

/-- Result of `_next_batch`: signal, post-state, and whether the fetch call
was made. -/
structure BatchResult where
  sig : BatchSig
  st : Gen
  didFetch : Bool
deriving DecidableEq

/-- `ListingGenerator._next_batch`, with the fetch call's outcome supplied
as an oracle.  Mirrors the source line by line: the exhaustion guard raises
before any fetch; a fetch exception propagates with no field assigned; the
response is normalized, `_listing` and `_list_index` are set, an empty page
raises `StopIteration` (leaving `_exhausted` untouched), and finally the
cursor is advanced or `_exhausted` is set. -/
def nextBatch (g : Gen) (fetch : FetchOutcome) : BatchResult :=
  if g.exhausted then
    { sig := .stop, st := g, didFetch := false }
  else
    match fetch with
    | .raise e => { sig := .fetchFail e, st := g, didFetch := true }
    | .ok raw =>
      let page := normalizeResponse raw
      let g1 : Gen := { g with listing := some page, listIndex := some 0 }
      if page.children.isEmpty then
        { sig := .stop, st := g1, didFetch := true }
      else
        match newCursor page.after g.params with
        | some a =>
            { sig := .ok
              st := { g1 with params := Params.set g1.params "after" (.vStr a) }
              didFetch := true }
        | none =>
            { sig := .ok, st := { g1 with exhausted := true }, didFetch := true }

/-- The trailing lines of `__next__`:
`self._list_index += 1; self.yielded += 1; return self._listing[self._list_index - 1]`.
The increments happen before the read, so if the read were out of range the
incremented state would persist (that branch, like an index of `None`, is a
Python `TypeError`/`IndexError`, signalled `pyError`; it is unreachable from
a constructed generator). -/
def yieldItem (g : Gen) (didFetch : Bool) : NextResult :=
  match g.listing, g.listIndex with
  | some page, some i =>
      let g' : Gen := { g with listIndex := some (i + 1), yielded := g.yielded + 1 }
      match page.children[i]? with
      | some x => { sig := .yield x, st := g', didFetch := didFetch }
      | none => { sig := .pyError, st := g', didFetch := didFetch }
  | _, _ => { sig := .pyError, st := g, didFetch := didFetch }

/-- The refill path of `__next__`: call `_next_batch` and, when it returns
normally, fall through to the yield step. -/
def refillThenYield (g : Gen) (fetch : FetchOutcome) : NextResult :=
  let b := nextBatch g fetch
  match b.sig with
  | .stop => { sig := .stop, st := b.st, didFetch := b.didFetch }
  | .fetchFail e => { sig := .fetchFail e, st := b.st, didFetch := b.didFetch }
  | .ok => yieldItem b.st b.didFetch

/-- `self.limit is not None and self.yielded >= self.limit`. -/
def limitReached (g : Gen) : Bool :=
  match g.limit with
  | none => false
  | some n => (g.yielded : Int) ≥ n

/-- `ListingGenerator.__next__`, with the would-be fetch outcome supplied as
an oracle (consumed only if the call actually refills).  Mirrors the source:
the limit check raises first; then
`if self._listing is None or self._list_index >= len(self._listing)` decides
whether `_next_batch` runs (comparing a `None` index against a length is a
Python `TypeError`, signalled `pyError`; unreachable from a constructed
generator); finally the current item is yielded. -/
def pyNext (g : Gen) (fetch : FetchOutcome) : NextResult :=
  if limitReached g then
    { sig := .stop, st := g, didFetch := false }
  else
    match g.listing with
    | none => refillThenYield g fetch
    | some page =>
      match g.listIndex with
      | none => { sig := .pyError, st := g, didFetch := false }
      | some i =>
          if i ≥ page.children.length then refillThenYield g fetch
          else yieldItem g false

/-- Run a sequence of `next()` calls, each with its own fetch oracle,
returning the final state. -/
def runSteps (g : Gen) : List FetchOutcome → Gen
  | [] => g
  | r :: rs => runSteps (pyNext g r).st rs

/-- Run a sequence of `next()` calls, collecting the yielded items in order
together with the final state. -/
def runCollect (g : Gen) : List FetchOutcome → List Item × Gen
  | [] => ([], g)
  | r :: rs =>
      let n := pyNext g r
      let rest := runCollect n.st rs
      match n.sig with
      | .yield x => (x :: rest.1, rest.2)
      | _ => rest

/-- States reachable from a given generator state by `next()` calls. -/
inductive Reachable (g0 : Gen) : Gen → Prop where
  | refl : Reachable g0 g0
  | step {g : Gen} (r : FetchOutcome) : Reachable g0 g → Reachable g0 (pyNext g r).st

/-! ## Heap model for parameter-dictionary aliasing

Python dictionaries are heap objects; `deepcopy(params)` in `__init__`
allocates a fresh one.  To state that the generator's in-place mutations of
`self.params` are invisible through the caller's reference, dictionaries are
placed in an explicit store addressed by allocation order.  (The dictionary
values are Python strings and integers, which are immutable, so a deep copy
and a one-level copy of the mapping coincide.) -/

/-- A heap address of a parameter dictionary. -/
abbrev Addr := Nat

/-- The heap of parameter dictionaries, addressed by position. -/
abbrev Store := List Params

/-- Read the dictionary at an address. -/
def storeGet (s : Store) (a : Addr) : Params :=
  (s[a]?).getD []

/-- Overwrite the dictionary at an address (in-place mutation of that
object; all other addresses untouched). -/
def storeSet (s : Store) (a : Addr) (p : Params) : Store :=
  s.set a p

/-- A generator whose `self.params` lives in the store: the pure state
mirrors the dictionary contents, `addr` is the identity of the heap object
it owns. -/
structure HGen where
  g : Gen
  addr : Addr

/-- `ListingGenerator.__init__` against the heap:
`self.params = deepcopy(params) if params else {}` allocates a fresh
dictionary (at the next address) holding a copy of the caller's contents
when the caller's dictionary is truthy, then writes the page-size hint into
the fresh copy.  The caller's dictionary is passed by reference
(`callerDict`), as in Python. -/
def hInit (s : Store) (url : String) (limit : Option Int) (callerDict : Option Addr) :
    HGen × Store :=
  let base : Params :=
    match callerDict with
    | none => []
    | some a => if (storeGet s a).isEmpty then [] else storeGet s a
  let p := Params.set base "limit" (pageSizeHint limit)
  (⟨{ exhausted := false
      listing := none
      listIndex := none
      limit := limit
      params := p
      url := url
      yielded := 0 }, s.length⟩,
   s ++ [p])

/-- One `__next__` call against the heap: the step reads the generator's own
dictionary, runs, and writes the (possibly mutated) dictionary back to the
same address — `self.params["after"] = ...` mutates only the object
`self.params` refers to. -/
def hNext (h : HGen) (s : Store) (fetch : FetchOutcome) : NextResult × Store :=
  let g : Gen := { h.g with params := storeGet s h.addr }
  let n := pyNext g fetch
  (n, storeSet s h.addr n.st.params)

/-- Run a sequence of `next()` calls against the heap, returning the final
store. -/
def hRun (h : HGen) (s : Store) : List FetchOutcome → Store
  | [] => s
  | r :: rs => hRun ⟨(hNext h s r).1.st, h.addr⟩ (hNext h s r).2 rs

/-! ## Claim predicates -/

/-- The index-validity invariant exactly as the spec states it: either
`currentPage` is `None`, or `currentIndex` is a valid index into the current
page's items (`0 <= currentIndex < length`). -/
def indexValidStrict (g : Gen) : Bool :=
  match g.listing, g.listIndex with
  | none, _ => true
  | some _, none => false
  | some page, some i => decide (i < page.children.length)

/-- The relaxed index invariant that actually holds: either `currentPage` is
`None`, or `currentIndex` is at most the page length (equality occurring
exactly when the page is fully consumed). -/
def indexInv (g : Gen) : Bool :=
  match g.listing, g.listIndex with
  | none, _ => true
  | some _, none => false
  | some page, some i => decide (i ≤ page.children.length)

/-! ## Basic lemmas about the embedded operations -/

lemma Params.get_set_self (p : Params) (k : String) (v : Val) :
    Params.get (Params.set p k v) k = some v := by
  induction p with
  | nil => simp [Params.set, Params.get]
  | cons hd tl ih =>
      obtain ⟨k', v'⟩ := hd
      by_cases hk : k' = k
      · simp [Params.set, Params.get, hk]
      · simp [Params.set, Params.get, hk, ih]

lemma nextBatch_of_exhausted (g : Gen) (r : FetchOutcome) (h : g.exhausted = true) :
    nextBatch g r = ⟨.stop, g, false⟩ := by
  simp [nextBatch, h]

lemma nextBatch_raise (g : Gen) (e : Nat) (h : g.exhausted = false) :
    nextBatch g (.raise e) = ⟨.fetchFail e, g, true⟩ := by
  simp [nextBatch, h]

lemma nextBatch_ok_empty (g : Gen) (raw : RawResponse) (hex : g.exhausted = false)
    (hemp : (normalizeResponse raw).children.isEmpty = true) :
    nextBatch g (.ok raw) =
      ⟨.stop, { g with listing := some (normalizeResponse raw), listIndex := some 0 }, true⟩ := by
  simp [nextBatch, hex, hemp]

lemma nextBatch_ok_advance (g : Gen) (raw : RawResponse) (a : String)
    (hex : g.exhausted = false)
    (hemp : (normalizeResponse raw).children.isEmpty = false)
    (hc : newCursor (normalizeResponse raw).after g.params = some a) :
    nextBatch g (.ok raw) =
      ⟨.ok,
        { g with
            listing := some (normalizeResponse raw)
            listIndex := some 0
            params := Params.set g.params "after" (.vStr a) },
        true⟩ := by
  simp [nextBatch, hex, hemp, hc]

lemma nextBatch_ok_exhaust (g : Gen) (raw : RawResponse)
    (hex : g.exhausted = false)
    (hemp : (normalizeResponse raw).children.isEmpty = false)
    (hc : newCursor (normalizeResponse raw).after g.params = none) :
    nextBatch g (.ok raw) =
      ⟨.ok,
        { g with
            listing := some (normalizeResponse raw)
            listIndex := some 0
            exhausted := true },
        true⟩ := by
  simp [nextBatch, hex, hemp, hc]

lemma nextBatch_st_yielded (g : Gen) (r : FetchOutcome) :
    (nextBatch g r).st.yielded = g.yielded := by
  by_cases h : g.exhausted = true
  · simp [nextBatch_of_exhausted g r h]
  · have h' : g.exhausted = false := by simpa using h
    cases r with
    | raise e => simp [nextBatch_raise g e h']
    | ok raw =>
        by_cases hemp : (normalizeResponse raw).children.isEmpty = true
        · simp [nextBatch_ok_empty g raw h' hemp]
        · have hemp' : (normalizeResponse raw).children.isEmpty = false := by simpa using hemp
          cases hc : newCursor (normalizeResponse raw).after g.params with
          | none => simp [nextBatch_ok_exhaust g raw h' hemp' hc]
          | some a => simp [nextBatch_ok_advance g raw a h' hemp' hc]

lemma nextBatch_st_limit (g : Gen) (r : FetchOutcome) :
    (nextBatch g r).st.limit = g.limit := by
  by_cases h : g.exhausted = true
  · simp [nextBatch_of_exhausted g r h]
  · have h' : g.exhausted = false := by simpa using h
    cases r with
    | raise e => simp [nextBatch_raise g e h']
    | ok raw =>
        by_cases hemp : (normalizeResponse raw).children.isEmpty = true
        · simp [nextBatch_ok_empty g raw h' hemp]
        · have hemp' : (normalizeResponse raw).children.isEmpty = false := by simpa using hemp
          cases hc : newCursor (normalizeResponse raw).after g.params with
          | none => simp [nextBatch_ok_exhaust g raw h' hemp' hc]
          | some a => simp [nextBatch_ok_advance g raw a h' hemp' hc]

lemma nextBatch_didFetch (g : Gen) (r : FetchOutcome) (hex : g.exhausted = false) :
    (nextBatch g r).didFetch = true := by
  cases r with
  | raise e => simp [nextBatch_raise g e hex]
  | ok raw =>
      by_cases hemp : (normalizeResponse raw).children.isEmpty = true
      · simp [nextBatch_ok_empty g raw hex hemp]
      · have hemp' : (normalizeResponse raw).children.isEmpty = false := by simpa using hemp
        cases hc : newCursor (normalizeResponse raw).after g.params with
        | none => simp [nextBatch_ok_exhaust g raw hex hemp' hc]
        | some a => simp [nextBatch_ok_advance g raw a hex hemp' hc]

lemma yieldItem_spec (g : Gen) (page : Page) (i : Nat) (b : Bool)
    (hp : g.listing = some page) (hi : g.listIndex = some i)
    (hlt : i < page.children.length) :
    yieldItem g b = ⟨.yield (page.children.get ⟨i, hlt⟩),
      { g with listIndex := some (i + 1), yielded := g.yielded + 1 }, b⟩ := by
  simp [yieldItem, hp, hi, List.getElem?_eq_getElem hlt, List.get_eq_getElem]

lemma yieldItem_yielded_le (g : Gen) (b : Bool) :
    (yieldItem g b).st.yielded ≤ g.yielded + 1 := by
  unfold yieldItem
  cases hp : g.listing with
  | none => simp
  | some page =>
      cases hi : g.listIndex with
      | none => simp
      | some i => cases hx : page.children[i]? <;> simp [hx]

lemma yieldItem_st_limit (g : Gen) (b : Bool) :
    (yieldItem g b).st.limit = g.limit := by
  unfold yieldItem
  cases hp : g.listing with
  | none => simp
  | some page =>
      cases hi : g.listIndex with
      | none => simp
      | some i => cases hx : page.children[i]? <;> simp [hx]

lemma yieldItem_st_exhausted (g : Gen) (b : Bool) :
    (yieldItem g b).st.exhausted = g.exhausted := by
  unfold yieldItem
  cases hp : g.listing with
  | none => simp
  | some page =>
      cases hi : g.listIndex with
      | none => simp
      | some i => cases hx : page.children[i]? <;> simp [hx]

lemma yieldItem_didFetch (g : Gen) (b : Bool) :
    (yieldItem g b).didFetch = b := by
  unfold yieldItem
  cases hp : g.listing with
  | none => simp
  | some page =>
      cases hi : g.listIndex with
      | none => simp
      | some i => cases hx : page.children[i]? <;> simp [hx]

lemma refill_of_exhausted (g : Gen) (r : FetchOutcome) (h : g.exhausted = true) :
    refillThenYield g r = ⟨.stop, g, false⟩ := by
  simp [refillThenYield, nextBatch_of_exhausted g r h]

lemma refill_raise (g : Gen) (e : Nat) (hex : g.exhausted = false) :
    refillThenYield g (.raise e) = ⟨.fetchFail e, g, true⟩ := by
  simp [refillThenYield, nextBatch_raise g e hex]

lemma refill_st_limit (g : Gen) (r : FetchOutcome) :
    (refillThenYield g r).st.limit = g.limit := by
  unfold refillThenYield
  cases hsig : (nextBatch g r).sig <;>
    simp [hsig, nextBatch_st_limit, yieldItem_st_limit]

lemma refill_yielded_le (g : Gen) (r : FetchOutcome) :
    (refillThenYield g r).st.yielded ≤ g.yielded + 1 := by
  unfold refillThenYield
  cases hsig : (nextBatch g r).sig with
  | stop => simp [hsig, nextBatch_st_yielded]
  | fetchFail e => simp [hsig, nextBatch_st_yielded]
  | ok =>
      simp only [hsig]
      have h1 := yieldItem_yielded_le (nextBatch g r).st (nextBatch g r).didFetch
      rw [nextBatch_st_yielded] at h1
      exact h1

lemma refill_didFetch (g : Gen) (r : FetchOutcome) :
    (refillThenYield g r).didFetch = (nextBatch g r).didFetch := by
  unfold refillThenYield
  cases hsig : (nextBatch g r).sig <;> simp [hsig, yieldItem_didFetch]

lemma pyNext_of_limitReached (g : Gen) (r : FetchOutcome) (h : limitReached g = true) :
    pyNext g r = ⟨.stop, g, false⟩ := by
  simp [pyNext, h]

lemma pyNext_st_limit (g : Gen) (r : FetchOutcome) :
    (pyNext g r).st.limit = g.limit := by
  unfold pyNext
  by_cases hl : limitReached g = true
  · simp [hl]
  · simp only [hl, Bool.false_eq_true, if_false]
    cases hg : g.listing with
    | none => exact refill_st_limit g r
    | some page =>
        cases hi : g.listIndex with
        | none => rfl
        | some i =>
            by_cases hge : i ≥ page.children.length
            · simp only [hge, if_true]
              exact refill_st_limit g r
            · simp only [hge, if_false]
              exact yieldItem_st_limit g false

lemma pyNext_yielded_le (g : Gen) (r : FetchOutcome) :
    (pyNext g r).st.yielded ≤ g.yielded + 1 := by
  unfold pyNext
  by_cases hl : limitReached g = true
  · simp [hl]
  · simp only [hl, Bool.false_eq_true, if_false]
    cases hg : g.listing with
    | none => exact refill_yielded_le g r
    | some page =>
        cases hi : g.listIndex with
        | none => simp
        | some i =>
            by_cases hge : i ≥ page.children.length
            · simp only [hge, if_true]
              exact refill_yielded_le g r
            · simp only [hge, if_false]
              exact yieldItem_yielded_le g false

lemma pyNext_exhausted_mono (g : Gen) (r : FetchOutcome) (h : g.exhausted = true) :
    (pyNext g r).st.exhausted = true := by
  unfold pyNext
  by_cases hl : limitReached g = true
  · simpa [hl] using h
  · simp only [hl, Bool.false_eq_true, if_false]
    cases hg : g.listing with
    | none => simp [refill_of_exhausted g r h, h]
    | some page =>
        cases hi : g.listIndex with
        | none => simpa using h
        | some i =>
            by_cases hge : i ≥ page.children.length
            · simp [hge, refill_of_exhausted g r h, h]
            · simp [hge, yieldItem_st_exhausted, h]

lemma indexInv_refill (g : Gen) (r : FetchOutcome) (h : indexInv g = true) :
    indexInv (refillThenYield g r).st = true := by
  by_cases hex : g.exhausted = true
  · simpa [refill_of_exhausted g r hex] using h
  · have hex' : g.exhausted = false := by simpa using hex
    cases r with
    | raise e => simpa [refill_raise g e hex'] using h
    | ok raw =>
        by_cases hemp : (normalizeResponse raw).children.isEmpty = true
        · simp [refillThenYield, nextBatch_ok_empty g raw hex' hemp, indexInv]
        · have hemp' : (normalizeResponse raw).children.isEmpty = false := by simpa using hemp
          have hlen : 0 < (normalizeResponse raw).children.length := by
            cases hcl : (normalizeResponse raw).children with
            | nil => rw [hcl] at hemp'; simp at hemp'
            | cons c cs => simp [hcl]
          cases hc : newCursor (normalizeResponse raw).after g.params with
          | some a =>
              simp only [refillThenYield, nextBatch_ok_advance g raw a hex' hemp' hc]
              rw [yieldItem_spec _ (normalizeResponse raw) 0 true rfl rfl hlen]
              simp [indexInv]
              omega
          | none =>
              simp only [refillThenYield, nextBatch_ok_exhaust g raw hex' hemp' hc]
              rw [yieldItem_spec _ (normalizeResponse raw) 0 true rfl rfl hlen]
              simp [indexInv]
              omega

lemma indexInv_step (g : Gen) (r : FetchOutcome) (h : indexInv g = true) :
    indexInv (pyNext g r).st = true := by
  unfold pyNext
  by_cases hl : limitReached g = true
  · simpa [hl] using h
  · simp only [hl, Bool.false_eq_true, if_false]
    cases hg : g.listing with
    | none => exact indexInv_refill g r h
    | some page =>
        cases hi : g.listIndex with
        | none =>
            exfalso
            unfold indexInv at h
            rw [hg, hi] at h
            exact Bool.false_ne_true h
        | some i =>
            by_cases hge : i ≥ page.children.length
            · simp only [hge, if_true]
              exact indexInv_refill g r h
            · have hlt : i < page.children.length := Nat.lt_of_not_le hge
              simp only [hge, if_false]
              rw [yieldItem_spec g page i false hg hi hlt]
              simp [indexInv, hg]
              omega

lemma nextBatch_ok_st_page (g : Gen) (raw : RawResponse) (hex : g.exhausted = false) :
    (nextBatch g (.ok raw)).st.listing = some (normalizeResponse raw) ∧
    (nextBatch g (.ok raw)).st.listIndex = some 0 := by
  by_cases hemp : (normalizeResponse raw).children.isEmpty = true
  · simp [nextBatch_ok_empty g raw hex hemp]
  · have hemp' : (normalizeResponse raw).children.isEmpty = false := by simpa using hemp
    cases hc : newCursor (normalizeResponse raw).after g.params with
    | none => simp [nextBatch_ok_exhaust g raw hex hemp' hc]
    | some a => simp [nextBatch_ok_advance g raw a hex hemp' hc]

lemma refill_ok_yield (g : Gen) (raw : RawResponse) (hex : g.exhausted = false)
    (hemp : (normalizeResponse raw).children.isEmpty = false) :
    ∃ x st, (normalizeResponse raw).children[0]? = some x ∧
      refillThenYield g (.ok raw) = ⟨.yield x, st, true⟩ ∧
      st.listing = some (normalizeResponse raw) ∧ st.listIndex = some 1 ∧
      st.limit = g.limit ∧ st.yielded = g.yielded + 1 := by
  have hlen : 0 < (normalizeResponse raw).children.length := by
    cases hcl : (normalizeResponse raw).children with
    | nil => rw [hcl] at hemp; simp at hemp
    | cons c cs => simp [hcl]
  cases hc : newCursor (normalizeResponse raw).after g.params with
  | some a =>
      refine ⟨(normalizeResponse raw).children.get ⟨0, hlen⟩,
        { exhausted := g.exhausted, listing := some (normalizeResponse raw),
          listIndex := some 1, limit := g.limit,
          params := Params.set g.params "after" (.vStr a), url := g.url,
          yielded := g.yielded + 1 },
        List.getElem?_eq_getElem hlen, ?_, rfl, rfl, rfl, rfl⟩
      simp only [refillThenYield, nextBatch_ok_advance g raw a hex hemp hc]
      rw [yieldItem_spec _ (normalizeResponse raw) 0 true rfl rfl hlen]
  | none =>
      refine ⟨(normalizeResponse raw).children.get ⟨0, hlen⟩,
        { exhausted := true, listing := some (normalizeResponse raw),
          listIndex := some 1, limit := g.limit,
          params := g.params, url := g.url,
          yielded := g.yielded + 1 },
        List.getElem?_eq_getElem hlen, ?_, rfl, rfl, rfl, rfl⟩
      simp only [refillThenYield, nextBatch_ok_exhaust g raw hex hemp hc]
      rw [yieldItem_spec _ (normalizeResponse raw) 0 true rfl rfl hlen]

lemma pyNext_refill_ok (g : Gen) (raw : RawResponse)
    (hlim : limitReached g = false) (hlst : g.listing = none)
    (hex : g.exhausted = false)
    (hemp : (normalizeResponse raw).children.isEmpty = false) :
    ∃ x st, (normalizeResponse raw).children[0]? = some x ∧
      pyNext g (.ok raw) = ⟨.yield x, st, true⟩ ∧
      st.listing = some (normalizeResponse raw) ∧ st.listIndex = some 1 ∧
      st.limit = g.limit ∧ st.yielded = g.yielded + 1 := by
  have hpy : pyNext g (.ok raw) = refillThenYield g (.ok raw) := by
    unfold pyNext
    rw [hlim, hlst]
    simp
  obtain ⟨x, st, h1, h2, h3⟩ := refill_ok_yield g raw hex hemp
  exact ⟨x, st, h1, by rw [hpy]; exact h2, h3⟩

lemma drain (page : Page) (k : Nat) :
    ∀ (i : Nat) (g : Gen), g.limit = none → g.listing = some page →
      g.listIndex = some i → i + k = page.children.length →
      (runCollect g (List.replicate k (.raise 0))).1 = page.children.drop i := by
  induction k with
  | zero =>
      intro i g hlim hp hi hik
      have hieq : i = page.children.length := by omega
      simp [runCollect, hieq, List.drop_length]
  | succ k ih =>
      intro i g hlim hp hi hik
      have hlt : i < page.children.length := by omega
      have hnl : limitReached g = false := by simp [limitReached, hlim]
      have hstep : pyNext g (.raise 0) = ⟨.yield (page.children.get ⟨i, hlt⟩),
          { exhausted := g.exhausted, listing := some page, listIndex := some (i + 1),
            limit := g.limit, params := g.params, url := g.url,
            yielded := g.yielded + 1 }, false⟩ := by
        have h1 : pyNext g (.raise 0) = yieldItem g false := by
          unfold pyNext
          rw [hnl, hp, hi]
          have hge : ¬ (i ≥ page.children.length) := Nat.not_le_of_lt hlt
          simp [hge]
        rw [h1, yieldItem_spec g page i false hp hi hlt, hp]
      rw [List.replicate_succ]
      simp only [runCollect, hstep]
      rw [ih (i + 1)
        { exhausted := g.exhausted, listing := some page, listIndex := some (i + 1),
          limit := g.limit, params := g.params, url := g.url, yielded := g.yielded + 1 }
        hlim rfl rfl (by omega)]
      rw [List.get_eq_getElem]
      exact (List.drop_eq_getElem_cons hlt).symm

lemma runSteps_exhausted (rs : List FetchOutcome) :
    ∀ g : Gen, g.exhausted = true → (runSteps g rs).exhausted = true := by
  induction rs with
  | nil => intro g h; simpa [runSteps] using h
  | cons r' rs ih =>
      intro g h
      simp only [runSteps]
      exact ih _ (pyNext_exhausted_mono g r' h)

/-! ## Claim theorems -/

/-- C1: for every generator constructed with a non-null item limit `N ≥ 0`,
`0 ≤ yielded ≤ N` holds in every reachable state, and once `yielded = N`
every further `next()` call raises `StopIteration` immediately, without a
fetch call and without changing the state. -/
theorem limit_enforcement (url : String) (N : Int) (ps : Option Params)
    (g : Gen) (r : FetchOutcome) (hN : 0 ≤ N)
    (hg : Reachable (Gen.init url (some N) ps) g) :
    (g.yielded : Int) ≤ N ∧
    ((g.yielded : Int) = N → pyNext g r = ⟨.stop, g, false⟩) := by
  have key : ∀ g', Reachable (Gen.init url (some N) ps) g' →
      g'.limit = some N ∧ (g'.yielded : Int) ≤ N := by
    intro g' hg'
    induction hg' with
    | refl => exact ⟨rfl, by simpa using hN⟩
    | @step gmid r' hr ih =>
        refine ⟨by rw [pyNext_st_limit]; exact ih.1, ?_⟩
        by_cases hl : limitReached gmid = true
        · rw [pyNext_of_limitReached _ _ hl]
          exact ih.2
        · have hlt : (gmid.yielded : Int) < N := by
            unfold limitReached at hl
            rw [ih.1] at hl
            simpa using hl
          have h2 : (pyNext gmid r').st.yielded ≤ gmid.yielded + 1 :=
            pyNext_yielded_le gmid r'
          have h3 : ((pyNext gmid r').st.yielded : Int) ≤ (gmid.yielded : Int) + 1 := by
            exact_mod_cast h2
          omega
  refine ⟨(key g hg).2, ?_⟩
  intro hy
  apply pyNext_of_limitReached
  have h1 := (key g hg).1
  simp [limitReached, h1, hy]

/-- Witness for C1 at `N = 2`, applied to a state reached after one
`next()` call yielded the first item of a three-item page. -/
theorem limit_enforcement_witness :
    (0 : Int) ≤ 2 ∧
    (((pyNext (Gen.init "u" (some 2) none)
        (.ok (.other ⟨[11, 12, 13], some "a"⟩))).st.yielded : Int) ≤ 2 ∧
      (((pyNext (Gen.init "u" (some 2) none)
          (.ok (.other ⟨[11, 12, 13], some "a"⟩))).st.yielded : Int) = 2 →
        pyNext (pyNext (Gen.init "u" (some 2) none)
            (.ok (.other ⟨[11, 12, 13], some "a"⟩))).st (.raise 1) =
          ⟨.stop, (pyNext (Gen.init "u" (some 2) none)
              (.ok (.other ⟨[11, 12, 13], some "a"⟩))).st, false⟩)) :=
  ⟨by decide,
    limit_enforcement "u" 2 none _ (.raise 1) (by decide)
      (Reachable.step (.ok (.other ⟨[11, 12, 13], some "a"⟩)) Reachable.refl)⟩

/-- C4: once `_exhausted` is true it stays true under every sequence of
further `next()` calls, and a refill attempted while exhausted raises
`StopIteration` with no fetch call and no state change. -/
theorem exhaustion_absorbing (g : Gen) (r : FetchOutcome) (rs : List FetchOutcome)
    (h : g.exhausted = true) :
    (runSteps g rs).exhausted = true ∧ nextBatch g r = ⟨.stop, g, false⟩ :=
  ⟨runSteps_exhausted rs g h, nextBatch_of_exhausted g r h⟩

/-- Witness for C4 on a concrete exhausted state. -/
theorem exhaustion_absorbing_witness :
    ({ (Gen.init "u" none none) with exhausted := true } : Gen).exhausted = true ∧
    ((runSteps { (Gen.init "u" none none) with exhausted := true }
        [.ok (.other ⟨[1], some "a"⟩), .raise 0]).exhausted = true ∧
      nextBatch { (Gen.init "u" none none) with exhausted := true } (.raise 5) =
        ⟨.stop, { (Gen.init "u" none none) with exhausted := true }, false⟩) :=
  ⟨by decide,
    exhaustion_absorbing { (Gen.init "u" none none) with exhausted := true }
      (.raise 5) [.ok (.other ⟨[1], some "a"⟩), .raise 0] (by decide)⟩

/-- C5: if the fetch call performed during a `next()` raises, the exception
propagates and the state after the call is exactly the state before it
(every field: `_listing`, `_list_index`, `_exhausted`, `yielded`, `params`,
`limit`, `url`), so the caller may retry. -/
theorem fetch_failure_atomic (g : Gen) (e : Nat)
    (h : (pyNext g (.raise e)).didFetch = true) :
    pyNext g (.raise e) = ⟨.fetchFail e, g, true⟩ := by
  by_cases hl : limitReached g = true
  · rw [pyNext_of_limitReached g _ hl] at h
    simp at h
  · have hl' : limitReached g = false := by simpa using hl
    cases hg : g.listing with
    | none =>
        have hred : pyNext g (.raise e) = refillThenYield g (.raise e) := by
          unfold pyNext
          rw [hl', hg]
          simp
        rw [hred] at h ⊢
        by_cases hex : g.exhausted = true
        · rw [refill_of_exhausted g _ hex] at h
          simp at h
        · exact refill_raise g e (by simpa using hex)
    | some page =>
        cases hi : g.listIndex with
        | none =>
            have hred : pyNext g (.raise e) = ⟨.pyError, g, false⟩ := by
              unfold pyNext
              rw [hl', hg, hi]
              simp
            rw [hred] at h
            simp at h
        | some i =>
            by_cases hge : i ≥ page.children.length
            · have hred : pyNext g (.raise e) = refillThenYield g (.raise e) := by
                unfold pyNext
                rw [hl', hg, hi]
                simp [hge]
              rw [hred] at h ⊢
              by_cases hex : g.exhausted = true
              · rw [refill_of_exhausted g _ hex] at h
                simp at h
              · exact refill_raise g e (by simpa using hex)
            · have hred : pyNext g (.raise e) = yieldItem g false := by
                unfold pyNext
                rw [hl', hg, hi]
                simp [hge]
              rw [hred, yieldItem_didFetch] at h
              simp at h

/-- Witness for C5: a fresh generator whose first fetch raises. -/
theorem fetch_failure_atomic_witness :
    (pyNext (Gen.init "u" none none) (.raise 3)).didFetch = true ∧
    pyNext (Gen.init "u" none none) (.raise 3) =
      ⟨.fetchFail 3, Gen.init "u" none none, true⟩ :=
  ⟨by decide, fetch_failure_atomic (Gen.init "u" none none) 3 (by decide)⟩

/-- C10: with `limit = 0`, every `next()` call stops immediately with no
fetch and no state change (so over any sequence of calls the state stays the
initial one), while the page-size hint `params["limit"]` is nevertheless set
to `1024`, because `limit or 1024` treats `0` like an unset limit. -/
theorem zero_limit_behavior (url : String) (ps : Option Params)
    (rs : List FetchOutcome) (r : FetchOutcome) :
    runSteps (Gen.init url (some 0) ps) rs = Gen.init url (some 0) ps ∧
    pyNext (Gen.init url (some 0) ps) r = ⟨.stop, Gen.init url (some 0) ps, false⟩ ∧
    Params.get (Gen.init url (some 0) ps).params "limit" = some (.vInt 1024) := by
  have hlr : limitReached (Gen.init url (some 0) ps) = true := by
    simp [limitReached, Gen.init]
  refine ⟨?_, pyNext_of_limitReached _ r hlr, ?_⟩
  · induction rs with
    | nil => rfl
    | cons r' rs ih =>
        simp only [runSteps]
        rw [pyNext_of_limitReached _ r' hlr]
        exact ih
  · cases ps with
    | none => exact Params.get_set_self [] "limit" (pageSizeHint (some 0))
    | some l =>
        exact Params.get_set_self (if l.isEmpty then [] else l) "limit"
          (pageSizeHint (some 0))

lemma pyNext_needs_refill_none (g : Gen) (r : FetchOutcome)
    (hl : limitReached g = false) (hlst : g.listing = none) :
    pyNext g r = refillThenYield g r := by
  unfold pyNext
  rw [hl, hlst]
  simp

lemma pyNext_needs_refill_consumed (g : Gen) (page : Page) (i : Nat) (r : FetchOutcome)
    (hl : limitReached g = false) (hp : g.listing = some page) (hi : g.listIndex = some i)
    (hge : i ≥ page.children.length) :
    pyNext g r = refillThenYield g r := by
  unfold pyNext
  rw [hl, hp, hi]
  simp [hge]

/-- C2: after a successful refill (generator not exhausted, fetched page
non-empty), the page becomes current with index 0 and its items are
yieldable; if the page's `after` is a non-empty string differing from the
`after` stored in `params` (the `newCursor` test, mirrorring the source
condition), `params["after"]` is updated to it and `_exhausted` stays
false; otherwise `_exhausted` is set and `params` is left unchanged. -/
theorem cursor_advancement (g : Gen) (raw : RawResponse)
    (hex : g.exhausted = false)
    (hemp : (normalizeResponse raw).children.isEmpty = false) :
    (nextBatch g (.ok raw)).sig = .ok ∧
    (nextBatch g (.ok raw)).st.listing = some (normalizeResponse raw) ∧
    (nextBatch g (.ok raw)).st.listIndex = some 0 ∧
    (∀ a, newCursor (normalizeResponse raw).after g.params = some a →
      (nextBatch g (.ok raw)).st.params = Params.set g.params "after" (.vStr a) ∧
      (nextBatch g (.ok raw)).st.exhausted = false) ∧
    (newCursor (normalizeResponse raw).after g.params = none →
      (nextBatch g (.ok raw)).st.exhausted = true ∧
      (nextBatch g (.ok raw)).st.params = g.params) ∧
    (∃ x, (normalizeResponse raw).children[0]? = some x ∧
      (refillThenYield g (.ok raw)).sig = .yield x) := by
  obtain ⟨hl1, hl2⟩ := nextBatch_ok_st_page g raw hex
  refine ⟨?_, hl1, hl2, ?_, ?_, ?_⟩
  · cases hc : newCursor (normalizeResponse raw).after g.params with
    | none => simp [nextBatch_ok_exhaust g raw hex hemp hc]
    | some a => simp [nextBatch_ok_advance g raw a hex hemp hc]
  · intro a hc
    rw [nextBatch_ok_advance g raw a hex hemp hc]
    exact ⟨rfl, hex⟩
  · intro hc
    rw [nextBatch_ok_exhaust g raw hex hemp hc]
    exact ⟨rfl, rfl⟩
  · obtain ⟨x, st, h1, h2, _⟩ := refill_ok_yield g raw hex hemp
    exact ⟨x, h1, by rw [h2]⟩

/-- Witness for C2 on a fresh generator and a two-item bare page whose
cursor advances. -/
theorem cursor_advancement_witness :
    (Gen.init "u" none none).exhausted = false ∧
    (normalizeResponse (.other ⟨[1, 2], some "a1"⟩)).children.isEmpty = false ∧
    (nextBatch (Gen.init "u" none none) (.ok (.other ⟨[1, 2], some "a1"⟩))).sig = .ok :=
  ⟨by decide, by decide,
    (cursor_advancement (Gen.init "u" none none) (.other ⟨[1, 2], some "a1"⟩)
      (by decide) (by decide)).1⟩

/-- C3 counterexample: after a refill fetches an empty page the call raises
`StopIteration`, but the generator is NOT permanently inert — the very next
`next()` call performs another fetch and can yield again, because
`_exhausted` was never set on the empty-page path. -/
theorem empty_page_not_inert_cex :
    (pyNext (Gen.init "u" none none) (.ok (.other ⟨[], some "a"⟩))).sig = .stop ∧
    (pyNext (Gen.init "u" none none) (.ok (.other ⟨[], some "a"⟩))).st.exhausted = false ∧
    (pyNext (pyNext (Gen.init "u" none none) (.ok (.other ⟨[], some "a"⟩))).st
        (.ok (.other ⟨[5], none⟩))).didFetch = true ∧
    (pyNext (pyNext (Gen.init "u" none none) (.ok (.other ⟨[], some "a"⟩))).st
        (.ok (.other ⟨[5], none⟩))).sig = .yield 5 := by
  decide

/-- C3 (amended): a refill that fetches an empty page raises
`StopIteration` regardless of the page's `after` cursor, leaving the empty
page current at index 0 with `params` unchanged; but `_exhausted` is NOT
set, so (unless the item limit intervenes) the next `next()` call attempts
another fetch rather than staying inert. -/
theorem empty_page_short_circuit (g : Gen) (raw : RawResponse) (r : FetchOutcome)
    (hex : g.exhausted = false)
    (hemp : (normalizeResponse raw).children.isEmpty = true) :
    nextBatch g (.ok raw) =
      ⟨.stop, { g with listing := some (normalizeResponse raw), listIndex := some 0 }, true⟩ ∧
    (refillThenYield g (.ok raw)).sig = .stop ∧
    (nextBatch g (.ok raw)).st.exhausted = false ∧
    (nextBatch g (.ok raw)).st.params = g.params ∧
    (limitReached (nextBatch g (.ok raw)).st = false →
      (pyNext (nextBatch g (.ok raw)).st r).didFetch = true) := by
  have hb := nextBatch_ok_empty g raw hex hemp
  have hlen : (normalizeResponse raw).children.length = 0 := by
    cases hcl : (normalizeResponse raw).children with
    | nil => simp
    | cons c cs => rw [hcl] at hemp; simp at hemp
  refine ⟨hb, ?_, ?_, ?_, ?_⟩
  · simp [refillThenYield, hb]
  · rw [hb]
    exact hex
  · rw [hb]
  · intro hlr
    have hred := pyNext_needs_refill_consumed (nextBatch g (.ok raw)).st
      (normalizeResponse raw) 0 r hlr
      (by rw [hb]) (by rw [hb]) (by omega)
    rw [hred, refill_didFetch]
    apply nextBatch_didFetch
    rw [hb]
    exact hex

/-- Witness for C3 (amended) on a fresh generator and an empty page that
carries a non-empty `after` cursor. -/
theorem empty_page_short_circuit_witness :
    (Gen.init "u" none none).exhausted = false ∧
    (normalizeResponse (.other ⟨[], some "a"⟩)).children.isEmpty = true ∧
    (refillThenYield (Gen.init "u" none none) (.ok (.other ⟨[], some "a"⟩))).sig = .stop :=
  ⟨by decide, by decide,
    (empty_page_short_circuit (Gen.init "u" none none) (.other ⟨[], some "a"⟩)
      (.raise 0) (by decide) (by decide)).2.1⟩

/-- C6 counterexample: a raw response that is neither a Python `list` nor a
`dict` (the ordinary bare-listing object) does not make the refill raise any
fatal protocol error — the refill succeeds, installs the response itself as
the current page, and the `next()` call yields its first item. -/
theorem protocol_violation_cex :
    (nextBatch (Gen.init "u" none none) (.ok (.other ⟨[7], some "a"⟩))).sig = .ok ∧
    (nextBatch (Gen.init "u" none none) (.ok (.other ⟨[7], some "a"⟩))).st.listing
      = some ⟨[7], some "a"⟩ ∧
    (pyNext (Gen.init "u" none none) (.ok (.other ⟨[7], some "a"⟩))).sig = .yield 7 := by
  decide

/-- C6 (amended): for every raw fetch response that is neither a `list` nor
a `dict`, the refill proceeds with the response itself as the current page
(`self._listing` falls through both `isinstance` branches unchanged), and
the only outcomes are the normal ones — a usable page, or `StopIteration`
when the page is empty.  No protocol-violation error exists in the code. -/
theorem bare_response_used_as_page (g : Gen) (p : Page) (hex : g.exhausted = false) :
    (nextBatch g (.ok (.other p))).st.listing = some p ∧
    ((nextBatch g (.ok (.other p))).sig = .ok ∨
      (nextBatch g (.ok (.other p))).sig = .stop) := by
  have h := nextBatch_ok_st_page g (.other p) hex
  refine ⟨h.1, ?_⟩
  by_cases hemp : (normalizeResponse (.other p)).children.isEmpty = true
  · right
    simp [nextBatch_ok_empty g (.other p) hex hemp]
  · have hemp' : (normalizeResponse (.other p)).children.isEmpty = false := by
      simpa using hemp
    left
    cases hc : newCursor (normalizeResponse (.other p)).after g.params with
    | none => simp [nextBatch_ok_exhaust g (.other p) hex hemp' hc]
    | some a => simp [nextBatch_ok_advance g (.other p) a hex hemp' hc]

/-- Witness for C6 (amended) on a fresh generator and a one-item bare page. -/
theorem bare_response_used_as_page_witness :
    (Gen.init "u" none none).exhausted = false ∧
    ((nextBatch (Gen.init "u" none none) (.ok (.other ⟨[8], none⟩))).st.listing
        = some ⟨[8], none⟩ ∧
      ((nextBatch (Gen.init "u" none none) (.ok (.other ⟨[8], none⟩))).sig = .ok ∨
        (nextBatch (Gen.init "u" none none) (.ok (.other ⟨[8], none⟩))).sig = .stop)) :=
  ⟨by decide, bare_response_used_as_page (Gen.init "u" none none) ⟨[8], none⟩ (by decide)⟩

/-- C7: for a raw response of the duplicates shape `[x, y]`, the refill
installs `y` (the element at index 1) as the current page, and draining the
generator for `y`'s page length yields exactly `y`'s items in order — the
remaining oracle entries are made failing fetches, so the run also shows no
further fetch occurs while `y` is being consumed; `x` contributes nothing. -/
theorem duplicates_unwrap (x y : Page) (url : String) (ps : Option Params) :
    (runCollect (Gen.init url none ps)
        (.ok (.pyList x y) :: List.replicate (y.children.length - 1) (.raise 0))).1
      = y.children ∧
    (nextBatch (Gen.init url none ps) (.ok (.pyList x y))).st.listing = some y := by
  have hex : (Gen.init url none ps).exhausted = false := rfl
  constructor
  · by_cases hemp : y.children.isEmpty = true
    · have hcl : y.children = [] := List.isEmpty_iff.mp hemp
      have hemp2 : (normalizeResponse (.pyList x y)).children.isEmpty = true := by
        simp [normalizeResponse, hcl]
      have hb := nextBatch_ok_empty (Gen.init url none ps) (.pyList x y) hex hemp2
      have hpy := pyNext_needs_refill_none (Gen.init url none ps)
        (.ok (.pyList x y)) rfl rfl
      rw [hcl]
      simp only [List.length_nil, Nat.zero_sub, List.replicate_zero]
      simp [runCollect, hpy, refillThenYield, hb]
    · have hemp' : (normalizeResponse (.pyList x y)).children.isEmpty = false := by
        simpa [normalizeResponse] using hemp
      have hlen : 0 < y.children.length := by
        cases hcy : y.children with
        | nil => rw [hcy] at hemp; simp at hemp
        | cons c cs => simp [hcy]
      obtain ⟨x0, st, h0, h1, h2, h3, h4, h5⟩ :=
        pyNext_refill_ok (Gen.init url none ps) (.pyList x y) rfl rfl hex hemp'
      simp only [runCollect, h1]
      have hlim : st.limit = none := by
        rw [h4]
        rfl
      rw [drain y (y.children.length - 1) 1 st hlim h2 h3 (by omega)]
      simp only [normalizeResponse] at h0
      rw [List.getElem?_eq_getElem hlen] at h0
      have hx0 : x0 = y.children[0] := by
        injection h0 with h
        exact h.symm
      rw [hx0]
      have hd := List.drop_eq_getElem_cons hlen
      rw [List.drop_zero] at hd
      exact hd.symm
  · exact (nextBatch_ok_st_page (Gen.init url none ps) (.pyList x y) hex).1

/-- C8 counterexample: after a completed, successful `next()` call that
consumed the only item of a one-item page, `_list_index` equals the page
length, which is not a valid index into the page — the strict invariant
stated by the spec is violated in a reachable state. -/
theorem index_validity_strict_cex :
    (pyNext (Gen.init "u" none none) (.ok (.other ⟨[3], some "a"⟩))).sig = .yield 3 ∧
    indexValidStrict (pyNext (Gen.init "u" none none)
      (.ok (.other ⟨[3], some "a"⟩))).st = false := by
  decide

/-- C8 (amended): in every state reachable from a freshly constructed
generator, either `_listing` is `None`, or `_list_index` is an integer with
`0 ≤ _list_index ≤ len(_listing)` — the index may equal the length (page
fully consumed) but never exceeds it, and is never `None` while a page is
current. -/
theorem index_invariant_relaxed (url : String) (limit : Option Int) (ps : Option Params)
    (g : Gen) (hg : Reachable (Gen.init url limit ps) g) :
    indexInv g = true := by
  induction hg with
  | refl => rfl
  | @step gmid r hr ih => exact indexInv_step gmid r ih

/-- Witness for C8 (amended) at the state reached by one yielding call. -/
theorem index_invariant_relaxed_witness :
    Reachable (Gen.init "u" none none)
      (pyNext (Gen.init "u" none none) (.ok (.other ⟨[3], some "a"⟩))).st ∧
    indexInv (pyNext (Gen.init "u" none none)
      (.ok (.other ⟨[3], some "a"⟩))).st = true :=
  ⟨Reachable.step (.ok (.other ⟨[3], some "a"⟩)) Reachable.refl,
    index_invariant_relaxed "u" none none _
      (Reachable.step (.ok (.other ⟨[3], some "a"⟩)) Reachable.refl)⟩

lemma hRun_other_addr (rs : List FetchOutcome) :
    ∀ (h : HGen) (s : Store) (ca : Addr), ca ≠ h.addr →
      storeGet (hRun h s rs) ca = storeGet s ca := by
  induction rs with
  | nil => intro h s ca hne; rfl
  | cons r rs ih =>
      intro h s ca hne
      simp only [hRun]
      rw [ih ⟨(hNext h s r).1.st, h.addr⟩ _ ca hne]
      simp only [hNext]
      unfold storeGet storeSet
      rw [List.getElem?_set_ne (Ne.symm hne)]

/-- C9: the dictionary the caller passed to the constructor is never
mutated: the constructor allocates a fresh copy (the `deepcopy`), writes the
`limit` page-size hint into the copy, and all `after` updates during refills
write through the generator's own reference only — so after any sequence of
`next()` calls the caller's dictionary reads back exactly its original
contents. -/
theorem caller_params_isolated (s : Store) (url : String) (limit : Option Int)
    (ca : Addr) (rs : List FetchOutcome) (hca : ca < s.length) :
    storeGet (hRun (hInit s url limit (some ca)).1 (hInit s url limit (some ca)).2 rs) ca
      = storeGet s ca := by
  have hne : ca ≠ (hInit s url limit (some ca)).1.addr := by
    have haddr : (hInit s url limit (some ca)).1.addr = s.length := rfl
    rw [haddr]
    exact Nat.ne_of_lt hca
  rw [hRun_other_addr rs (hInit s url limit (some ca)).1 _ ca hne]
  simp only [hInit]
  unfold storeGet
  rw [List.getElem?_append_left hca]

/-- Witness for C9: a caller dictionary holding one binding survives a
two-call run (one successful fetch that rewrites `after`, one failing
fetch) unchanged. -/
theorem caller_params_isolated_witness :
    (0 : Addr) < ([[("a", Val.vStr "x")]] : Store).length ∧
    storeGet (hRun (hInit [[("a", Val.vStr "x")]] "u" (some 5) (some 0)).1
        (hInit [[("a", Val.vStr "x")]] "u" (some 5) (some 0)).2
        [.ok (.other ⟨[1], some "a1"⟩), .raise 0]) 0
      = storeGet [[("a", Val.vStr "x")]] 0 :=
  ⟨by decide,
    caller_params_isolated [[("a", .vStr "x")]] "u" (some 5) 0
      [.ok (.other ⟨[1], some "a1"⟩), .raise 0] (by decide)⟩

end Praw
